import Mathlib

/-!
Shallow embedding of `testfixtures/logcapture.py`.

The module defines one class, `LogCapture`, a `logging.Handler` subclass that
swaps itself in as the sole handler of a set of named loggers, buffers every
record it receives, and compares the buffer against expected triples.

Modelling choices:
* Handlers are identified by numeric ids; every handler id in this model
  denotes a `LogCapture` instance (the only kind of handler the claims need).
* Logger names are `Option String`: `Option.none` is the name argument `None`,
  which `logging.getLogger` resolves to the root logger (whose record name is
  the string root).
* The mutable state of the Python process is one record `LogState`: the logger
  configuration map, the class attribute `LogCapture.instances` (the registry),
  the per-instance attribute records, the internal bookkeeping structures
  `logging._handlers` and `logging._handlerList`, and a heap giving the current
  string value of each message-argument object (arguments are mutable Python
  objects, referenced from records by id).
* `logging.LogRecord` stores the unrendered message template together with the
  ids of its argument objects; `getMessage` interpolates on demand, reading the
  current heap, exactly as the standard library does.
* Fallible operations (`uninstall` can raise `KeyError` through
  `self.oldlevels[name]` on states where a saved entry is missing) return
  `Except String LogState`.
-/

namespace Testfixtures

/-- A logging channel (Python `logging.Logger`): its severity threshold and its
handler list. -/
structure Logger where
  level : Nat
  handlers : List Nat
deriving DecidableEq, Repr

/-- Python `logging.LogRecord`: channel name, numeric severity, severity name,
unrendered message template, and the ids of the argument objects. -/
structure LogRecord where
  name : String
  levelno : Nat
  levelname : String
  msg : String
  args : List Nat
deriving DecidableEq, Repr

/-- Substitute each `%s` in the character stream with the next argument string:
the fragment of Python percent formatting these records exercise. -/
def interpChars : List Char → List String → List Char
  | [], _ => []
  | '%' :: 's' :: rest, a :: as => a.toList ++ interpChars rest as
  | c :: rest, as => c :: interpChars rest as

/-- Python `logging.LogRecord.getMessage`: return the template unchanged when there are
no arguments, otherwise interpolate the current values of the argument objects,
read from the heap at the moment of the call. -/
def getMessage (heap : Nat → String) (r : LogRecord) : String :=
  if r.args = [] then r.msg
  else String.mk (interpChars r.msg.toList (r.args.map heap))

/-- Per-instance attributes of `LogCapture` (`__init__`, lines 28-38):
`names`, `level`, `oldlevels`, `oldhandlers`, `records`.

`swappedIn` is a specification ghost field, not present in the source: it is set
exactly when `install` swaps the instance into its channels and cleared exactly
when `uninstall` restores them, and no definition reads it.  It gives the
invariant of the registry a non-circular statement. -/
structure LogCapture where
  names : List (Option String)
  level : Nat
  oldlevels : List (Option String × Nat)
  oldhandlers : List (Option String × List Nat)
  records : List LogRecord
  swappedIn : Bool
deriving DecidableEq, Repr

/-- The mutable state of the process. -/
structure LogState where
  loggers : Option String → Logger
  instances : Finset Nat
  caps : Nat → LogCapture
  handlersDict : Finset Nat
  handlerList : List Nat
  heap : Nat → String

/-- Python dict read `m[k]` as an option, over an association list in which the
most recent binding of a key comes first. -/
def dictGet {α : Type} : List (Option String × α) → Option String → Option α
  | [], _ => Option.none
  | (k, v) :: rest, n => if n = k then some v else dictGet rest n

/-- Raise `KeyError` when the key is absent. -/
def keyErr {α : Type} : Option α → Except String α
  | some v => Except.ok v
  | Option.none => Except.error "KeyError"

namespace LogCapture

/-- Source `LogCapture.emit` (lines 53-54): append the record object to the buffer. -/
def emit (id : Nat) (r : LogRecord) (st : LogState) : LogState :=
  let cap := st.caps id
  { st with caps := Function.update st.caps id ({ cap with records := cap.records ++ [r] }) }

/-- Source `LogCapture.clear` (lines 49-51): `self.records = []`. -/
def clear (id : Nat) (st : LogState) : LogState :=
  { st with caps := Function.update st.caps id { st.caps id with records := [] } }

/-- One iteration of the loop in `install` (lines 63-68): save the logger's
current level and handler list into the restoration dicts, then set the level
to the capture's own and replace the handler list with exactly this instance. -/
def installStep (id : Nat) (st : LogState) (name : Option String) : LogState :=
  let lg := st.loggers name
  let cap := st.caps id
  { st with
    caps := Function.update st.caps id
      ({ cap with
         oldlevels := (name, lg.level) :: cap.oldlevels,
         oldhandlers := (name, lg.handlers) :: cap.oldhandlers }),
    loggers := Function.update st.loggers name { level := cap.level, handlers := [id] } }

/-- Source `LogCapture.install` (lines 56-73): run the per-name loop, then add the
instance to the class-level registry.  The atexit hook registration has no
observable effect on any state the claims mention and is not modelled.
The ghost field `swappedIn` is set. -/
def install (id : Nat) (st : LogState) : LogState :=
  let st1 := (st.caps id).names.foldl (installStep id) st
  { st1 with
    instances := insert id st1.instances,
    caps := Function.update st1.caps id { st1.caps id with swappedIn := true } }

/-- One iteration of the loop in `uninstall` (lines 84-91): restore the saved
level (raising `KeyError` if `name` is not a key of `oldlevels`), restore the
saved handler list likewise, then defensively remove the instance from
`logging._handlers` and `logging._handlerList` if present. -/
def uninstallStep (id : Nat) (st : LogState) (name : Option String) :
    Except String LogState := do
  let cap := st.caps id
  let lvl ← keyErr (dictGet cap.oldlevels name)
  let st1 : LogState :=
    { st with loggers := Function.update st.loggers name ({ st.loggers name with level := lvl }) }
  let hs ← keyErr (dictGet cap.oldhandlers name)
  let st2 : LogState :=
    { st1 with loggers := Function.update st1.loggers name ({ st1.loggers name with handlers := hs }) }
  pure { st2 with
    handlersDict := st2.handlersDict.erase id,
    handlerList := st2.handlerList.erase id }

/-- Source `LogCapture.uninstall` (lines 75-93): guarded by registry membership; run
the per-name restoration loop, then remove the instance from the registry.
The ghost field `swappedIn` is cleared in the same branch. -/
def uninstall (id : Nat) (st : LogState) : Except String LogState :=
  if id ∈ st.instances then do
    let st1 ← (st.caps id).names.foldlM (uninstallStep id) st
    pure { st1 with
      instances := st1.instances.erase id,
      caps := Function.update st1.caps id { st1.caps id with swappedIn := false } }
  else pure st

/-- Source `LogCapture.uninstall_all` (lines 95-99): uninstall every instance of a
snapshot of the registry, in some fixed order (Python iterates
`tuple(cls.instances)`; set order is arbitrary, we pick ascending ids). -/
def uninstall_all (st : LogState) : Except String LogState :=
  (st.instances.sort (· ≤ ·)).foldlM (fun s i => uninstall i s) st

/-- Source `LogCapture.actual` (lines 101-103): one triple per buffered record, in
buffer order, with the message rendered by `getMessage` at the moment of the
walk. -/
def actual (st : LogState) (id : Nat) : List (String × String × String) :=
  (st.caps id).records.map fun r => (r.name, r.levelname, getMessage st.heap r)

end LogCapture

namespace Comparison

/-- Display one (channel, severity, message) triple. -/
def showTriple (t : String × String × String) : String :=
  "(" ++ t.1 ++ ", " ++ t.2.1 ++ ", " ++ t.2.2 ++ ")"

/-- First point of divergence of two triple sequences: index and values. -/
def firstDivergence :
    List (String × String × String) → List (String × String × String) → Nat → String
  | [], [], _ => "sequences match"
  | [], a :: _, i =>
    "unexpected entry at index " ++ toString i ++ ": " ++ showTriple a
  | e :: _, [], i =>
    "missing entry at index " ++ toString i ++ ": expected " ++ showTriple e
  | e :: es, a :: as, i =>
    if e = a then firstDivergence es as (i + 1)
    else "mismatch at index " ++ toString i ++ ": expected " ++ showTriple e ++
      ", actual " ++ showTriple a

/-- Modelled from the spec: the comparison helper `compare` of
`testfixtures.comparison` is imported by `logcapture.py` but its source is not
under `src/`.  Per the spec it, given two sequences of triples, returns success
(a neutral result) when they match exactly in order, and otherwise fails with a
descriptive mismatch error indicating the first point of divergence (index,
expected value, actual value), without recursing into triple elements. -/
def compare (expected actualSeq : List (String × String × String)) :
    Except String Unit :=
  if expected = actualSeq then Except.ok ()
  else Except.error (firstDivergence expected actualSeq 0)

end Comparison

namespace LogCapture

/-- Source `LogCapture.check` (lines 110-124): compare the expected triples against
`tuple(self.actual())`. -/
def check (id : Nat) (expected : List (String × String × String)) (st : LogState) :
    Except String Unit :=
  Comparison.compare expected (actual st id)

/-- Source `LogCapture.__init__` (lines 28-38), after name normalization: store the
channel names and level, initialize the restoration dicts, call `clear`, and
install when the `install` flag is set.  `logging.Handler.__init__` registers
the new handler in `logging._handlers` and at the front of
`logging._handlerList`. -/
def construct (id : Nat) (names : List (Option String)) (installFlag : Bool)
    (level : Nat) (st : LogState) : LogState :=
  let st1 : LogState :=
    { st with
      caps := Function.update st.caps id
        ({ names := names, level := level, oldlevels := [], oldhandlers := [],
           records := [], swappedIn := false }),
      handlersDict := insert id st.handlersDict,
      handlerList := id :: st.handlerList }
  if installFlag then install id st1 else st1

/-- Source `LogCapture.__enter__` (lines 126-127): `return self`; the state is not
touched. -/
def enter (id : Nat) (st : LogState) : Nat × LogState := (id, st)

/-- Source `LogCapture.__exit__` (lines 129-130): call `uninstall`, whatever the
exception information is. -/
def exitScope (id : Nat) (exc : Option String) (st : LogState) :
    Except String LogState :=
  uninstall id st

end LogCapture

/-- A logging call made by code under test: target channel, numeric severity,
severity name, message template, argument object ids. -/
structure LogEvent where
  channel : Option String
  levelno : Nat
  levelname : String
  msg : String
  args : List Nat
deriving DecidableEq, Repr

/-- The record name `logging.getLogger(key).name`: the root logger is named
root. -/
def logChannelName : Option String → String
  | Option.none => "root"
  | some s => s

/-- The `logging.LogRecord` built for an event. -/
def mkRecord (ev : LogEvent) : LogRecord :=
  { name := logChannelName ev.channel, levelno := ev.levelno,
    levelname := ev.levelname, msg := ev.msg, args := ev.args }

/-- Dispatch of one logging call by the framework, restricted to what the
claims need: the logger accepts the event when its severity reaches the logger
threshold, and each handler whose own threshold is reached receives the record
via `emit`.  Hierarchy propagation and effective-level search are not involved:
`install` configures the exact named logger with an explicit positive level. -/
def handleEvent (st : LogState) (ev : LogEvent) : LogState :=
  let lg := st.loggers ev.channel
  if lg.level ≤ ev.levelno then
    lg.handlers.foldl
      (fun s hid =>
        if (s.caps hid).level ≤ ev.levelno then LogCapture.emit hid (mkRecord ev) s
        else s)
      st
  else st

/-- Run a sequence of logging calls. -/
def runEvents (evs : List LogEvent) (st : LogState) : LogState :=
  evs.foldl handleEvent st

/-- Mutate one message-argument object after emission. -/
def setArg (k : Nat) (v : String) (st : LogState) : LogState :=
  { st with heap := Function.update st.heap k v }

/-- A fresh, never-installed capture value (what `__init__` with default
arguments stores, before any install). -/
def initCap : LogCapture :=
  { names := [Option.none], level := 1, oldlevels := [], oldhandlers := [],
    records := [], swappedIn := false }

/-- A quiescent process state: root-style loggers at level 30 with no handlers,
empty registry, no buffered records anywhere. -/
def initState : LogState :=
  { loggers := fun _ => { level := 30, handlers := [] },
    instances := ∅, caps := fun _ => initCap,
    handlersDict := ∅, handlerList := [], heap := fun _ => "" }

/-- A non-tuple Python value that may be passed as the `names` argument of
`__init__`: the default `None`, a single dotted name, or a list of names. -/
inductive PyVal
  | pynone
  | str (s : String)
  | strList (xs : List String)
deriving DecidableEq, Repr

/-- The `names` argument of `__init__`: either a tuple or any non-tuple value. -/
inductive PyNames
  | val (v : PyVal)
  | tup (xs : List PyVal)
deriving DecidableEq, Repr

/-- Lines 30-32 of `__init__`:
`if not isinstance(names, tuple): names = (names,)`.
A tuple is taken elementwise; any other value becomes the sole element of a
one-element tuple. -/
def LogCapture.initNames : PyNames → List PyVal
  | PyNames.tup xs => xs
  | PyNames.val v => [v]

/-- Python `logging.getLogger` key resolution for one stored name: `None` designates
the root logger, a string designates the logger of that dotted name, and a
list is not a valid logger name (`getLogger` raises `TypeError`). -/
def loggerKey : PyVal → Option (Option String)
  | PyVal.pynone => some Option.none
  | PyVal.str s => some (some s)
  | PyVal.strList _ => Option.none

/-- The state a successful `Except` computation produced, with a fallback. -/
def okState (e : Except String LogState) (d : LogState) : LogState :=
  match e with
  | Except.ok s => s
  | Except.error _ => d

/-- Every channel name of instance `i` has a saved threshold and a saved
handler list (as `install` leaves them). -/
def SavedComplete (st : LogState) (i : Nat) : Prop :=
  ∀ n ∈ (st.caps i).names,
    (dictGet ((st.caps i).oldlevels) n).isSome = true ∧
    (dictGet ((st.caps i).oldhandlers) n).isSome = true

instance (st : LogState) (i : Nat) : Decidable (SavedComplete st i) := by
  unfold SavedComplete; infer_instance

/-- Distinct registered instances capture disjoint channel sets. -/
def NamesDisjoint (st : LogState) : Prop :=
  ∀ i ∈ st.instances, ∀ j ∈ st.instances, i ≠ j →
    ∀ n ∈ (st.caps i).names, n ∉ (st.caps j).names

instance (st : LogState) : Decidable (NamesDisjoint st) := by
  unfold NamesDisjoint; infer_instance

/-- The logger configuration instance `i` saved for channel `n`. -/
def savedLogger (st : LogState) (i : Nat) (n : Option String) : Logger :=
  { level := (dictGet ((st.caps i).oldlevels) n).getD 0,
    handlers := (dictGet ((st.caps i).oldhandlers) n).getD [] }

/-- All per-instance attributes of the source are equal in the two states
(the ghost field is allowed to differ). -/
def capsMatch (a b : LogState) : Prop :=
  ∀ j, (a.caps j).names = (b.caps j).names ∧
    (a.caps j).level = (b.caps j).level ∧
    (a.caps j).oldlevels = (b.caps j).oldlevels ∧
    (a.caps j).oldhandlers = (b.caps j).oldhandlers ∧
    (a.caps j).records = (b.caps j).records

/-- The operations of the public lifecycle. -/
inductive Op
  | construct (id : Nat) (names : List (Option String)) (installFlag : Bool) (level : Nat)
  | install (id : Nat)
  | uninstall (id : Nat)
  | uninstallAll
  | clear (id : Nat)
  | logCall (ev : LogEvent)
  | enter (id : Nat)
  | exitScope (id : Nat) (exc : Option String)

/-- One completed operation.  `construct` requires the id of the new Python
object to be fresh (a newly allocated object is a member of no set); the
fallible operations step on their success states. -/
inductive Step : LogState → Op → LogState → Prop
  | construct {st : LogState} {id : Nat} {names : List (Option String)}
      {installFlag : Bool} {level : Nat} :
      id ∉ st.instances →
      Step st (Op.construct id names installFlag level)
        (LogCapture.construct id names installFlag level st)
  | install {st : LogState} {id : Nat} :
      Step st (Op.install id) (LogCapture.install id st)
  | uninstall {st st2 : LogState} {id : Nat} :
      LogCapture.uninstall id st = Except.ok st2 → Step st (Op.uninstall id) st2
  | uninstallAll {st st2 : LogState} :
      LogCapture.uninstall_all st = Except.ok st2 → Step st Op.uninstallAll st2
  | clear {st : LogState} {id : Nat} :
      Step st (Op.clear id) (LogCapture.clear id st)
  | logCall {st : LogState} {ev : LogEvent} :
      Step st (Op.logCall ev) (handleEvent st ev)
  | enter {st : LogState} {id : Nat} :
      Step st (Op.enter id) (LogCapture.enter id st).2
  | exitScope {st st2 : LogState} {id : Nat} {exc : Option String} :
      LogCapture.exitScope id exc st = Except.ok st2 →
      Step st (Op.exitScope id exc) st2

/-- A completed sequence of operations. -/
inductive Steps : LogState → List Op → LogState → Prop
  | nil {st : LogState} : Steps st [] st
  | cons {st st1 st2 : LogState} {op : Op} {ops : List Op} :
      Step st op st1 → Steps st1 ops st2 → Steps st (op :: ops) st2

/-- The registry invariant: an instance is a member of `LogCapture.instances`
exactly when it has swapped itself into its channels and not yet restored
them. -/
def RegInv (st : LogState) : Prop :=
  ∀ id, id ∈ st.instances ↔ (st.caps id).swappedIn = true

/-- A capture constructed with `install=False`: not installed at entry. -/
def stNoInstall : LogState := LogCapture.construct 0 [some "a"] false 1 initState

/-- A capture installed on channel `app` over a heap in which argument object
`0` currently reads `alpha`. -/
def stC3 : LogState :=
  LogCapture.construct 0 [some "app"] true 1 { initState with heap := fun _ => "alpha" }

/-- A warning-level event on channel `app` whose message interpolates argument
object `0`. -/
def evC3 : LogEvent :=
  { channel := some "app", levelno := 30, levelname := "WARNING",
    msg := "value: %s", args := [0] }

/-- A capture with the duplicated channel tuple `("a", "a")`, about to be
installed over a channel at level 30 with one prior handler. -/
def stDupNames : LogState :=
  { initState with
    loggers := fun n => if n = some "a" then { level := 30, handlers := [7] } else initState.loggers n,
    caps := fun j => if j = 0 then
      { names := [some "a", some "a"], level := 1, oldlevels := [], oldhandlers := [],
        records := [], swappedIn := false } else initState.caps j }

/-- A freshly constructed and installed capture on channel `a`. -/
def stW5 : LogState := LogCapture.construct 0 [some "a"] true 1 initState

/-- The state after the first `uninstall` of `stW5`. -/
def stW5a : LogState := okState (LogCapture.uninstall 0 stW5) stW5

/-- Two captures installed on the disjoint channels `a` and `b`. -/
def stW7 : LogState :=
  LogCapture.construct 2 [some "b"] true 1 (LogCapture.construct 1 [some "a"] true 1 initState)

/-- Two captures installed on the same channel `a`, the second after the
first, so the second saved the state the first had swapped in. -/
def stOverlap : LogState :=
  LogCapture.construct 2 [some "a"] true 1 (LogCapture.construct 1 [some "a"] true 1 initState)

/-- A capture installed on channel `app` at level 1. -/
def stW2 : LogState := LogCapture.construct 0 [some "app"] true 1 initState

/-- Three logging calls on channel `app`; the middle one is below the capture
threshold. -/
def evsW2 : List LogEvent :=
  [{ channel := some "app", levelno := 30, levelname := "WARNING",
     msg := "connection retry", args := [] },
   { channel := some "app", levelno := 0, levelname := "NOTSET",
     msg := "dropped", args := [] },
   { channel := some "app", levelno := 40, levelname := "ERROR",
     msg := "connection failed", args := [] }]

/-- A one-operation history: construct (and install) capture `0`. -/
def opsW6 : List Op := [Op.construct 0 [some "a"] true 1]

/-- The state `opsW6` reaches from `initState`. -/
def stW6 : LogState := LogCapture.construct 0 [some "a"] true 1 initState

/-! ## Helper lemmas -/

theorem dictGet_cons_self {α : Type} (m : List (Option String × α))
    (k : Option String) (v : α) : dictGet ((k, v) :: m) k = some v := by
  simp [dictGet]

theorem dictGet_cons_ne {α : Type} (m : List (Option String × α))
    (k k2 : Option String) (v : α) (h : k2 ≠ k) :
    dictGet ((k, v) :: m) k2 = dictGet m k2 := by
  simp [dictGet, h]

theorem emit_frame (id : Nat) (r : LogRecord) (st : LogState) :
    (LogCapture.emit id r st).loggers = st.loggers ∧
    (LogCapture.emit id r st).instances = st.instances ∧
    (LogCapture.emit id r st).handlersDict = st.handlersDict ∧
    (LogCapture.emit id r st).handlerList = st.handlerList ∧
    (LogCapture.emit id r st).heap = st.heap :=
  ⟨rfl, rfl, rfl, rfl, rfl⟩

theorem emit_caps (id : Nat) (r : LogRecord) (st : LogState) (j : Nat) :
    ((LogCapture.emit id r st).caps j).names = (st.caps j).names ∧
    ((LogCapture.emit id r st).caps j).level = (st.caps j).level ∧
    ((LogCapture.emit id r st).caps j).oldlevels = (st.caps j).oldlevels ∧
    ((LogCapture.emit id r st).caps j).oldhandlers = (st.caps j).oldhandlers ∧
    ((LogCapture.emit id r st).caps j).swappedIn = (st.caps j).swappedIn ∧
    ((LogCapture.emit id r st).caps j).records =
      (if j = id then (st.caps j).records ++ [r] else (st.caps j).records) := by
  by_cases h : j = id
  · subst h; simp [LogCapture.emit, Function.update_same]
  · simp [LogCapture.emit, Function.update_noteq h, h]

theorem emit_actual (id : Nat) (r : LogRecord) (st : LogState) :
    LogCapture.actual (LogCapture.emit id r st) id =
      LogCapture.actual st id ++ [(r.name, r.levelname, getMessage st.heap r)] := by
  simp [LogCapture.actual, LogCapture.emit, Function.update_same]

/-! ## C10: constructor name normalization -/

/-- C10: the constructor wraps any non-tuple `names` argument into a one-element
tuple.  The default `None` yields the single root channel; a list of several
channel names is kept whole as one single channel key rather than one key per
named channel; only a tuple is read as multiple channels. -/
theorem initNames_wraps_nontuple :
    (∀ v : PyVal, LogCapture.initNames (PyNames.val v) = [v]) ∧
    (∀ xs : List PyVal, LogCapture.initNames (PyNames.tup xs) = xs) ∧
    LogCapture.initNames (PyNames.val PyVal.pynone) = [PyVal.pynone] ∧
    loggerKey PyVal.pynone = some Option.none ∧
    LogCapture.initNames (PyNames.val (PyVal.strList ["db", "app"])) =
      [PyVal.strList ["db", "app"]] ∧
    (LogCapture.initNames (PyNames.val (PyVal.strList ["db", "app"]))).length = 1 ∧
    LogCapture.initNames (PyNames.tup [PyVal.str "db", PyVal.str "app"]) =
      [PyVal.str "db", PyVal.str "app"] :=
  ⟨fun _ => rfl, fun _ => rfl, rfl, rfl, rfl, rfl, rfl⟩

/-! ## C8: frame property of clear -/

/-- C8: `clear` empties the record buffer — `actual` then yields nothing and a
`check` with no expected entries succeeds — and changes nothing else: registry
membership, channel names, saved thresholds, saved receivers, the other
instances, and all channel configuration are untouched, installed or not. -/
theorem clear_frame (st : LogState) (id : Nat) :
    ((LogCapture.clear id st).caps id).records = [] ∧
    LogCapture.actual (LogCapture.clear id st) id = [] ∧
    LogCapture.check id [] (LogCapture.clear id st) = Except.ok () ∧
    (LogCapture.clear id st).instances = st.instances ∧
    (LogCapture.clear id st).loggers = st.loggers ∧
    (LogCapture.clear id st).handlersDict = st.handlersDict ∧
    (LogCapture.clear id st).handlerList = st.handlerList ∧
    (LogCapture.clear id st).heap = st.heap ∧
    ((LogCapture.clear id st).caps id).names = (st.caps id).names ∧
    ((LogCapture.clear id st).caps id).level = (st.caps id).level ∧
    ((LogCapture.clear id st).caps id).oldlevels = (st.caps id).oldlevels ∧
    ((LogCapture.clear id st).caps id).oldhandlers = (st.caps id).oldhandlers ∧
    ((LogCapture.clear id st).caps id).swappedIn = (st.caps id).swappedIn ∧
    (∀ j, j ≠ id → (LogCapture.clear id st).caps j = st.caps j) := by
  refine ⟨?_, ?_, ?_, rfl, rfl, rfl, rfl, rfl, ?_, ?_, ?_, ?_, ?_, ?_⟩
  · simp [LogCapture.clear, Function.update_same]
  · simp [LogCapture.actual, LogCapture.clear, Function.update_same]
  · simp [LogCapture.check, Comparison.compare, LogCapture.actual, LogCapture.clear,
      Function.update_same]
  · simp [LogCapture.clear, Function.update_same]
  · simp [LogCapture.clear, Function.update_same]
  · simp [LogCapture.clear, Function.update_same]
  · simp [LogCapture.clear, Function.update_same]
  · simp [LogCapture.clear, Function.update_same]
  · intro j hj; simp [LogCapture.clear, Function.update_noteq hj]

/-- Witness for the hypothesis of the quantified frame conjunct of C8. -/
theorem clear_frame_witness :
    (1 : Nat) ≠ 0 ∧ (LogCapture.clear 0 initState).caps 1 = initState.caps 1 :=
  ⟨by decide,
    (clear_frame initState 0).2.2.2.2.2.2.2.2.2.2.2.2.2 1 (by decide)⟩

/-! ## C9: scoped-resource contract -/

/-- C9 counterexample: entry does not install.  A capture constructed with
`install=False` is returned by `__enter__` as-is, not in the registry and with
its channel unswapped, contradicting the claim that acquire-on-entry returns
the instance in an already-installed state. -/
theorem enter_does_not_install_cex :
    (LogCapture.enter 0 stNoInstall).1 = 0 ∧
    (LogCapture.enter 0 stNoInstall).2 = stNoInstall ∧
    0 ∉ (LogCapture.enter 0 stNoInstall).2.instances ∧
    ((LogCapture.enter 0 stNoInstall).2.loggers (some "a")).handlers = [] :=
  ⟨rfl, rfl, by decide, rfl⟩

/-- C9 (amended): `__enter__` returns the instance itself and performs no
state change — entry itself does not install; an instance constructed with the
default `install` flag is in the registry from construction, hence already
installed at entry — and `__exit__` calls `uninstall` on every exit path,
whatever the exception information is. -/
theorem scoped_resource_contract :
    (∀ (st : LogState) (id : Nat), LogCapture.enter id st = (id, st)) ∧
    (∀ (st : LogState) (id : Nat) (names : List (Option String)) (lvl : Nat),
      id ∈ (LogCapture.construct id names true lvl st).instances) ∧
    (∀ (st : LogState) (id : Nat) (exc : Option String),
      LogCapture.exitScope id exc st = LogCapture.uninstall id st) := by
  refine ⟨fun _ _ => rfl, ?_, fun _ _ _ => rfl⟩
  intro st id names lvl
  simp [LogCapture.construct, LogCapture.install]

/-! ## C3: message rendering time -/

/-- C3 counterexample: the captured entry is not rendered at capture time.
After the event is recorded, mutating argument object `0` changes the message
that `actual` produces, so interpolation happens when the entry is read, not
when it is recorded. -/
theorem message_rendered_lazily_cex :
    LogCapture.actual (handleEvent stC3 evC3) 0 =
      [("app", "WARNING", "value: alpha")] ∧
    LogCapture.actual (setArg 0 "beta" (handleEvent stC3 evC3)) 0 =
      [("app", "WARNING", "value: beta")] ∧
    LogCapture.actual (setArg 0 "beta" (handleEvent stC3 evC3)) 0 ≠
      LogCapture.actual (handleEvent stC3 evC3) 0 :=
  ⟨rfl, rfl, by decide⟩

/-- C3 (amended): `emit` stores the record object itself, with its message
template and argument references unrendered; the message of each triple is
rendered when `actual` (and hence `check` or the textual summary) walks the
buffer, interpolating the argument values as they stand in the heap at that
moment — so mutating an argument object after emission changes the message
subsequently read. -/
theorem message_rendered_at_read (st : LogState) (id : Nat) (r : LogRecord)
    (k : Nat) (v : String) :
    ((LogCapture.emit id r st).caps id).records = (st.caps id).records ++ [r] ∧
    LogCapture.actual (setArg k v (LogCapture.emit id r st)) id =
      ((st.caps id).records ++ [r]).map
        (fun q => (q.name, q.levelname, getMessage (Function.update st.heap k v) q)) := by
  constructor
  · simp [LogCapture.emit, Function.update_same]
  · simp [LogCapture.actual, LogCapture.emit, setArg, Function.update_same]

/-! ## C1: check succeeds exactly on equality -/

/-- C1: `check(*expected)` returns the neutral result exactly when the expected
sequence equals, element for element and in order, the sequence of triples
produced by `actual()`; on any difference (length or content) it fails with the
descriptive mismatch error naming the first point of divergence. -/
theorem check_succeeds_iff_exact_match (st : LogState) (id : Nat)
    (expected : List (String × String × String)) :
    (LogCapture.check id expected st = Except.ok () ↔
      expected = LogCapture.actual st id) ∧
    (expected ≠ LogCapture.actual st id →
      LogCapture.check id expected st =
        Except.error
          (Comparison.firstDivergence expected (LogCapture.actual st id) 0)) := by
  unfold LogCapture.check Comparison.compare
  constructor
  · split
    · simp_all
    · simp_all
  · intro h
    simp [h]

/-- Witness discharging the mismatch hypothesis of C1 at a concrete state. -/
theorem check_succeeds_iff_exact_match_witness :
    [("app", "ERROR", "x")] ≠ LogCapture.actual initState 0 ∧
    LogCapture.check 0 [("app", "ERROR", "x")] initState =
      Except.error
        (Comparison.firstDivergence [("app", "ERROR", "x")]
          (LogCapture.actual initState 0) 0) :=
  ⟨by decide, (check_succeeds_iff_exact_match initState 0 [("app", "ERROR", "x")]).2 (by decide)⟩

/-! ## C2: actual enumerates the buffer in arrival order -/

/-- On a channel whose handler list is exactly this instance and whose logger
threshold equals the capture threshold, dispatch reduces to an accept test
followed by `emit`. -/
theorem handleEvent_installed (st : LogState) (id : Nat) (ev : LogEvent)
    (hh : (st.loggers ev.channel).handlers = [id])
    (hl : (st.loggers ev.channel).level = (st.caps id).level) :
    handleEvent st ev =
      if (st.caps id).level ≤ ev.levelno then LogCapture.emit id (mkRecord ev) st
      else st := by
  by_cases hc : (st.caps id).level ≤ ev.levelno <;>
    simp [handleEvent, hh, hl, hc]

/-- Running a sequence of events on the instance's channels appends, to the
walk of the buffer, one triple per accepted event, in order. -/
theorem runEvents_actual (id : Nat) :
    ∀ (evs : List LogEvent) (st : LogState),
    (∀ c ∈ (st.caps id).names,
      (st.loggers c).handlers = [id] ∧ (st.loggers c).level = (st.caps id).level) →
    (∀ ev ∈ evs, ev.channel ∈ (st.caps id).names) →
    LogCapture.actual (runEvents evs st) id =
      LogCapture.actual st id ++
        (evs.filter (fun ev => (st.caps id).level ≤ ev.levelno)).map
          (fun ev => (logChannelName ev.channel, ev.levelname,
            getMessage st.heap (mkRecord ev)))
  | [], st, _, _ => by simp [runEvents]
  | ev :: rest, st, hch, hevs => by
    have hev : ev.channel ∈ (st.caps id).names := hevs ev (by simp)
    obtain ⟨hh, hl⟩ := hch ev.channel hev
    have hrun : runEvents (ev :: rest) st = runEvents rest (handleEvent st ev) := by
      simp [runEvents]
    rw [hrun, handleEvent_installed st id ev hh hl]
    by_cases hc : (st.caps id).level ≤ ev.levelno
    · rw [if_pos hc]
      have hcaps := emit_caps id (mkRecord ev) st id
      have hframe := emit_frame id (mkRecord ev) st
      have hch1 : ∀ c ∈ ((LogCapture.emit id (mkRecord ev) st).caps id).names,
          ((LogCapture.emit id (mkRecord ev) st).loggers c).handlers = [id] ∧
          ((LogCapture.emit id (mkRecord ev) st).loggers c).level =
            ((LogCapture.emit id (mkRecord ev) st).caps id).level := by
        intro c hc1
        rw [hcaps.1] at hc1
        rw [hframe.1, hcaps.2.1]
        exact hch c hc1
      have hevs1 : ∀ e ∈ rest,
          e.channel ∈ ((LogCapture.emit id (mkRecord ev) st).caps id).names := by
        intro e he
        rw [hcaps.1]
        exact hevs e (by simp [he])
      rw [runEvents_actual id rest (LogCapture.emit id (mkRecord ev) st) hch1 hevs1,
        emit_actual, hcaps.2.1, hframe.2.2.2.2]
      simp [List.filter_cons, hc, mkRecord, List.append_assoc]
    · rw [if_neg hc]
      rw [runEvents_actual id rest st hch (fun e he => hevs e (by simp [he]))]
      simp [List.filter_cons, hc]

/-- C2: for every sequence of logging calls on the instance's channels while it
is installed, `actual()` yields one (channel, severity, message) triple per
accepted entry, appended in emission order to the triples already buffered —
and it is restartable: a later invocation re-walks the current buffer,
reflecting entries emitted or cleared since the previous walk. -/
theorem actual_enumerates_buffer (st : LogState) (id : Nat) (evs : List LogEvent)
    (hch : ∀ c ∈ (st.caps id).names,
      (st.loggers c).handlers = [id] ∧ (st.loggers c).level = (st.caps id).level)
    (hevs : ∀ ev ∈ evs, ev.channel ∈ (st.caps id).names) :
    LogCapture.actual (runEvents evs st) id =
      LogCapture.actual st id ++
        (evs.filter (fun ev => (st.caps id).level ≤ ev.levelno)).map
          (fun ev => (logChannelName ev.channel, ev.levelname,
            getMessage st.heap (mkRecord ev))) ∧
    (∀ r : LogRecord,
      LogCapture.actual (LogCapture.emit id r (runEvents evs st)) id =
        LogCapture.actual (runEvents evs st) id ++
          [(r.name, r.levelname, getMessage (runEvents evs st).heap r)]) ∧
    LogCapture.actual (LogCapture.clear id (runEvents evs st)) id = [] := by
  refine ⟨runEvents_actual id evs st hch hevs,
    fun r => emit_actual id r (runEvents evs st), ?_⟩
  simp [LogCapture.actual, LogCapture.clear, Function.update_same]

/-- Witness for C2 at a concrete installed capture and three concrete events,
one of which is below the threshold. -/
theorem actual_enumerates_buffer_witness :
    (∀ c ∈ (stW2.caps 0).names,
      (stW2.loggers c).handlers = [0] ∧ (stW2.loggers c).level = (stW2.caps 0).level) ∧
    (∀ ev ∈ evsW2, ev.channel ∈ (stW2.caps 0).names) ∧
    LogCapture.actual (runEvents evsW2 stW2) 0 =
      LogCapture.actual stW2 0 ++
        (evsW2.filter (fun ev => (stW2.caps 0).level ≤ ev.levelno)).map
          (fun ev => (logChannelName ev.channel, ev.levelname,
            getMessage stW2.heap (mkRecord ev))) :=
  ⟨by decide, by decide, (actual_enumerates_buffer stW2 0 evsW2 (by decide) (by decide)).1⟩

/-! ## C5: uninstall is idempotent -/

theorem except_bind_ok {α β : Type} {e : Except String α} {f : α → Except String β}
    {b : β} (h : e >>= f = Except.ok b) :
    ∃ a, e = Except.ok a ∧ f a = Except.ok b := by
  cases e with
  | ok a => exact ⟨a, rfl, by simpa [Bind.bind, Except.bind] using h⟩
  | error msg => simp [Bind.bind, Except.bind] at h

/-- Unfolding of `uninstall` on a registered instance. -/
theorem uninstall_of_mem (id : Nat) (st : LogState) (hm : id ∈ st.instances) :
    LogCapture.uninstall id st =
      ((st.caps id).names.foldlM (LogCapture.uninstallStep id) st) >>= fun st1 =>
        pure { st1 with
          instances := st1.instances.erase id,
          caps := Function.update st1.caps id ({ st1.caps id with swappedIn := false }) } := by
  simp [LogCapture.uninstall, hm]

/-- Unfolding of `uninstall` on an unregistered instance: a pure no-op. -/
theorem uninstall_of_not_mem (id : Nat) (st : LogState) (hm : id ∉ st.instances) :
    LogCapture.uninstall id st = Except.ok st := by
  simp [LogCapture.uninstall, hm, pure, Except.pure]

/-- C5: `uninstall` is idempotent — after a completed `uninstall`, calling it
again returns the very same state unchanged — and calling `uninstall` on an
instance that is not in the registry is a no-op that changes neither the
registry nor any channel state. -/
theorem uninstall_idempotent (st st1 : LogState) (id : Nat) :
    (LogCapture.uninstall id st = Except.ok st1 →
      LogCapture.uninstall id st1 = Except.ok st1) ∧
    (id ∉ st.instances → LogCapture.uninstall id st = Except.ok st) := by
  constructor
  · intro h
    by_cases hm : id ∈ st.instances
    · rw [uninstall_of_mem id st hm] at h
      obtain ⟨stF, _, hpure⟩ := except_bind_ok h
      have hst1 : st1 = { stF with
          instances := stF.instances.erase id,
          caps := Function.update stF.caps id ({ stF.caps id with swappedIn := false }) } := by
        simpa [pure, Except.pure, eq_comm] using hpure
      have hnm : id ∉ st1.instances := by
        rw [hst1]
        exact Finset.not_mem_erase id stF.instances
      exact uninstall_of_not_mem id st1 hnm
    · rw [uninstall_of_not_mem id st hm] at h
      have hst1 : st1 = st := by simpa [eq_comm] using h
      rw [hst1]
      exact uninstall_of_not_mem id st hm
  · exact uninstall_of_not_mem id st

/-- Witness for C5: a concrete installed capture, uninstalled once, then
uninstalled again, and a concrete absent instance. -/
theorem uninstall_idempotent_witness :
    LogCapture.uninstall 0 stW5 = Except.ok stW5a ∧
    LogCapture.uninstall 0 stW5a = Except.ok stW5a ∧
    (5 : Nat) ∉ stW5.instances ∧
    LogCapture.uninstall 5 stW5 = Except.ok stW5 :=
  ⟨by rfl,
    (uninstall_idempotent stW5 stW5a 0).1 (by rfl),
    by decide,
    (uninstall_idempotent stW5 stW5 5).2 (by decide)⟩

/-! ## C4: install/uninstall round trip -/

theorem installStep_loggers (id : Nat) (st : LogState) (n m : Option String) :
    (LogCapture.installStep id st n).loggers m =
      if m = n then { level := (st.caps id).level, handlers := [id] }
      else st.loggers m := by
  by_cases h : m = n
  · subst h; simp [LogCapture.installStep, Function.update_same]
  · simp [LogCapture.installStep, Function.update_noteq h, h]

theorem installStep_caps_self (id : Nat) (st : LogState) (n : Option String) :
    (LogCapture.installStep id st n).caps id =
      { st.caps id with
        oldlevels := (n, (st.loggers n).level) :: (st.caps id).oldlevels,
        oldhandlers := (n, (st.loggers n).handlers) :: (st.caps id).oldhandlers } := by
  simp [LogCapture.installStep, Function.update_same]

theorem installStep_instances (id : Nat) (st : LogState) (n : Option String) :
    (LogCapture.installStep id st n).instances = st.instances := rfl

/-- The saving pass of `install` over distinct names: each name ends up bound,
in the restoration dicts, to the configuration the channel had when the pass
started; the capture's level and names are untouched, as is the registry. -/
theorem foldl_installStep_saves (id : Nat) :
    ∀ (ns : List (Option String)) (st : LogState), ns.Nodup →
    ∃ stF, ns.foldl (LogCapture.installStep id) st = stF ∧
      (∀ n ∈ ns, dictGet ((stF.caps id).oldlevels) n = some ((st.loggers n).level)) ∧
      (∀ n ∈ ns, dictGet ((stF.caps id).oldhandlers) n = some ((st.loggers n).handlers)) ∧
      (∀ n, n ∉ ns →
        dictGet ((stF.caps id).oldlevels) n = dictGet ((st.caps id).oldlevels) n ∧
        dictGet ((stF.caps id).oldhandlers) n = dictGet ((st.caps id).oldhandlers) n) ∧
      (stF.caps id).names = (st.caps id).names ∧
      (stF.caps id).level = (st.caps id).level ∧
      stF.instances = st.instances
  | [], st, _ => ⟨st, rfl, by simp, by simp, fun n _ => ⟨rfl, rfl⟩, rfl, rfl, rfl⟩
  | n :: rest, st, hnd => by
    obtain ⟨hn, hrest⟩ := List.nodup_cons.mp hnd
    obtain ⟨stF, hF, hA, hB, hE, hnames, hlevel, hinst⟩ :=
      foldl_installStep_saves id rest (LogCapture.installStep id st n) hrest
    refine ⟨stF, by simpa using hF, ?_, ?_, ?_, ?_, ?_, ?_⟩
    · intro m hm
      rcases List.mem_cons.mp hm with hm | hm
      · subst hm
        rw [(hE m hn).1, installStep_caps_self]
        simp [dictGet_cons_self]
      · rw [hA m hm, installStep_loggers]
        have : m ≠ n := fun he => hn (he ▸ hm)
        simp [this]
    · intro m hm
      rcases List.mem_cons.mp hm with hm | hm
      · subst hm
        rw [(hE m hn).2, installStep_caps_self]
        simp [dictGet_cons_self]
      · rw [hB m hm, installStep_loggers]
        have : m ≠ n := fun he => hn (he ▸ hm)
        simp [this]
    · intro m hm
      have hmr : m ∉ rest := fun h => hm (List.mem_cons_of_mem n h)
      have hmn : m ≠ n := fun he => hm (he ▸ List.mem_cons_self n rest)
      obtain ⟨he1, he2⟩ := hE m hmr
      rw [he1, he2, installStep_caps_self]
      exact ⟨dictGet_cons_ne _ _ _ _ hmn, dictGet_cons_ne _ _ _ _ hmn⟩
    · rw [hnames, installStep_caps_self]
    · rw [hlevel, installStep_caps_self]
    · rw [hinst, installStep_instances]

/-- Running `install` on distinct names: the restoration dicts hold the prior
configuration of every named channel, the name list is unchanged, and the
instance joins the registry. -/
theorem install_spec (id : Nat) (st : LogState) (hnd : (st.caps id).names.Nodup) :
    (∀ n ∈ (st.caps id).names,
      dictGet (((LogCapture.install id st).caps id).oldlevels) n =
        some ((st.loggers n).level) ∧
      dictGet (((LogCapture.install id st).caps id).oldhandlers) n =
        some ((st.loggers n).handlers)) ∧
    ((LogCapture.install id st).caps id).names = (st.caps id).names ∧
    id ∈ (LogCapture.install id st).instances := by
  obtain ⟨stF, hF, hA, hB, _, hnames, _, _⟩ :=
    foldl_installStep_saves id ((st.caps id).names) st hnd
  have hcaps : (LogCapture.install id st).caps id =
      { stF.caps id with swappedIn := true } := by
    simp [LogCapture.install, hF, Function.update_same]
  have hinsts : (LogCapture.install id st).instances = insert id stF.instances := by
    simp [LogCapture.install, hF]
  refine ⟨?_, ?_, ?_⟩
  · intro n hn
    rw [hcaps]
    exact ⟨hA n hn, hB n hn⟩
  · rw [hcaps]; exact hnames
  · rw [hinsts]; exact Finset.mem_insert_self id stF.instances

/-- A successful `uninstallStep`: both saved entries exist, the channel is set
to them, and the instance is removed from the framework bookkeeping. -/
theorem uninstallStep_ok (id : Nat) (st : LogState) (n : Option String)
    (l : Nat) (hs : List Nat)
    (hl : dictGet ((st.caps id).oldlevels) n = some l)
    (hh : dictGet ((st.caps id).oldhandlers) n = some hs) :
    LogCapture.uninstallStep id st n = Except.ok
      { st with
        loggers := Function.update st.loggers n { level := l, handlers := hs },
        handlersDict := st.handlersDict.erase id,
        handlerList := st.handlerList.erase id } := by
  simp [LogCapture.uninstallStep, hl, hh, keyErr, Bind.bind, Except.bind,
    pure, Except.pure, Function.update_idem, Function.update_same]

/-- The restoration pass of `uninstall`, given that every name has saved
entries: it succeeds, touches neither the captures nor the registry nor the
heap, sets every named channel to its saved configuration, and leaves every
other channel alone. -/
theorem foldlM_uninstallStep_restores (id : Nat) :
    ∀ (ns : List (Option String)) (st : LogState),
    (∀ n ∈ ns, (dictGet ((st.caps id).oldlevels) n).isSome = true ∧
      (dictGet ((st.caps id).oldhandlers) n).isSome = true) →
    ∃ stF, ns.foldlM (LogCapture.uninstallStep id) st = Except.ok stF ∧
      stF.caps = st.caps ∧
      stF.instances = st.instances ∧
      stF.heap = st.heap ∧
      (∀ n ∈ ns, stF.loggers n = savedLogger st id n) ∧
      (∀ n, n ∉ ns → stF.loggers n = st.loggers n)
  | [], st, _ => ⟨st, rfl, rfl, rfl, rfl, by simp, fun _ _ => rfl⟩
  | n :: rest, st, hsaved => by
    obtain ⟨hl0, hh0⟩ := hsaved n (List.mem_cons_self n rest)
    obtain ⟨l, hl⟩ := Option.isSome_iff_exists.mp hl0
    obtain ⟨hs, hh⟩ := Option.isSome_iff_exists.mp hh0
    have hstep := uninstallStep_ok id st n l hs hl hh
    set st1 : LogState :=
      { st with
        loggers := Function.update st.loggers n { level := l, handlers := hs },
        handlersDict := st.handlersDict.erase id,
        handlerList := st.handlerList.erase id } with hst1
    have hsaved1 : ∀ m ∈ rest, (dictGet ((st1.caps id).oldlevels) m).isSome = true ∧
        (dictGet ((st1.caps id).oldhandlers) m).isSome = true := by
      intro m hm
      exact hsaved m (List.mem_cons_of_mem n hm)
    obtain ⟨stF, hfold, hcaps, hinsts, hheap, hres, hfr⟩ :=
      foldlM_uninstallStep_restores id rest st1 hsaved1
    refine ⟨stF, ?_, hcaps, hinsts, hheap, ?_, ?_⟩
    · rw [List.foldlM_cons, hstep]
      simpa [Bind.bind, Except.bind] using hfold
    · intro m hm
      rcases List.mem_cons.mp hm with hm | hm
      · subst hm
        by_cases hmr : m ∈ rest
        · rw [hres m hmr]
          simp [savedLogger]
        · rw [hfr m hmr, hst1]
          simp [Function.update_same, savedLogger, hl, hh]
      · rw [hres m hm]
        simp [savedLogger]
    · intro m hm
      have hmr : m ∉ rest := fun h => hm (List.mem_cons_of_mem n h)
      have hmn : m ≠ n := fun he => hm (he ▸ List.mem_cons_self n rest)
      rw [hfr m hmr, hst1]
      simp [Function.update_noteq hmn]

/-- Running `uninstall` of a registered instance with complete saved state: it
succeeds, removes the instance from the registry, restores every named channel
to its saved configuration, leaves other channels alone, and leaves every
capture's source attributes unchanged. -/
theorem uninstall_ok_spec (id : Nat) (st : LogState)
    (hmem : id ∈ st.instances) (hsaved : SavedComplete st id) :
    ∃ stF, LogCapture.uninstall id st = Except.ok stF ∧
      stF.instances = st.instances.erase id ∧
      capsMatch stF st ∧
      stF.heap = st.heap ∧
      (∀ n ∈ (st.caps id).names, stF.loggers n = savedLogger st id n) ∧
      (∀ n, n ∉ (st.caps id).names → stF.loggers n = st.loggers n) := by
  obtain ⟨stM, hfold, hcaps, hinsts, hheap, hres, hfr⟩ :=
    foldlM_uninstallStep_restores id ((st.caps id).names) st hsaved
  refine ⟨{ stM with
      instances := stM.instances.erase id,
      caps := Function.update stM.caps id ({ stM.caps id with swappedIn := false }) },
    ?_, ?_, ?_, ?_, ?_, ?_⟩
  · rw [uninstall_of_mem id st hmem, hfold]
    simp [Bind.bind, Except.bind, pure, Except.pure]
  · rw [hinsts]
  · intro j
    by_cases hj : j = id
    · subst hj
      simp [Function.update_same, hcaps]
    · simp [Function.update_noteq hj, hcaps]
  · exact hheap
  · exact hres
  · exact hfr

/-- C4 (amended): for an instance whose channel names are pairwise distinct,
`install()` followed immediately by `uninstall()` succeeds and restores, for
each of the instance's channel names, exactly the threshold and exactly the
receiver list the channel had before `install()`.  (With a duplicated name the
second saving pass overwrites the saved state, see the counterexample.) -/
theorem install_uninstall_roundtrip (st : LogState) (id : Nat)
    (hnd : (st.caps id).names.Nodup) :
    LogCapture.uninstall id (LogCapture.install id st) =
      Except.ok (okState (LogCapture.uninstall id (LogCapture.install id st)) st) ∧
    ∀ n ∈ (st.caps id).names,
      (okState (LogCapture.uninstall id (LogCapture.install id st)) st).loggers n =
        st.loggers n := by
  obtain ⟨hsave, hnames, hmem⟩ := install_spec id st hnd
  have hsc : SavedComplete (LogCapture.install id st) id := by
    intro n hn
    rw [hnames] at hn
    obtain ⟨h1, h2⟩ := hsave n hn
    exact ⟨by simp [h1], by simp [h2]⟩
  obtain ⟨stF, hU, _, _, _, hresF, _⟩ :=
    uninstall_ok_spec id (LogCapture.install id st) hmem hsc
  rw [hU]
  refine ⟨rfl, ?_⟩
  intro n hn
  have hn2 : n ∈ ((LogCapture.install id st).caps id).names := by
    rw [hnames]; exact hn
  have hval := hresF n hn2
  obtain ⟨h1, h2⟩ := hsave n hn
  show stF.loggers n = st.loggers n
  rw [hval]
  simp [savedLogger, h1, h2]

/-- Witness for C4 at a concrete capture on the single channel `a`. -/
theorem install_uninstall_roundtrip_witness :
    (stNoInstall.caps 0).names.Nodup ∧
    LogCapture.uninstall 0 (LogCapture.install 0 stNoInstall) =
      Except.ok (okState (LogCapture.uninstall 0 (LogCapture.install 0 stNoInstall)) stNoInstall) ∧
    ∀ n ∈ (stNoInstall.caps 0).names,
      (okState (LogCapture.uninstall 0 (LogCapture.install 0 stNoInstall)) stNoInstall).loggers n =
        stNoInstall.loggers n :=
  ⟨by decide,
    (install_uninstall_roundtrip stNoInstall 0 (by decide)).1,
    (install_uninstall_roundtrip stNoInstall 0 (by decide)).2⟩

/-- C4 counterexample: with the duplicated channel tuple `("a", "a")` the
second saving pass records the already-swapped configuration, so the round
trip leaves channel `a` at the capture's own configuration (level 1, handler
list `[0]`) instead of the prior level 30 and handler list `[7]`. -/
theorem roundtrip_duplicate_names_cex :
    (stDupNames.caps 0).names = [some "a", some "a"] ∧
    (stDupNames.loggers (some "a")).level = 30 ∧
    (stDupNames.loggers (some "a")).handlers = [7] ∧
    (match LogCapture.uninstall 0 (LogCapture.install 0 stDupNames) with
      | Except.ok s => some ((s.loggers (some "a")).level, (s.loggers (some "a")).handlers)
      | Except.error _ => Option.none) = some (1, [0]) :=
  ⟨rfl, rfl, rfl, rfl⟩

/-! ## C7: uninstall_all -/

theorem capsMatch_trans {a b c : LogState} (h1 : capsMatch a b) (h2 : capsMatch b c) :
    capsMatch a c := by
  intro j
  obtain ⟨x1, x2, x3, x4, x5⟩ := h1 j
  obtain ⟨y1, y2, y3, y4, y5⟩ := h2 j
  exact ⟨x1.trans y1, x2.trans y2, x3.trans y3, x4.trans y4, x5.trans y5⟩

theorem savedLogger_eq_of_capsMatch {a b : LogState} (h : capsMatch a b)
    (i : Nat) (n : Option String) : savedLogger a i n = savedLogger b i n := by
  obtain ⟨_, _, h3, h4, _⟩ := h i
  simp [savedLogger, h3, h4]

theorem savedComplete_of_capsMatch {a b : LogState} (h : capsMatch a b) (i : Nat)
    (hs : SavedComplete b i) : SavedComplete a i := by
  intro n hn
  obtain ⟨h1, _, h3, h4, _⟩ := h i
  rw [h1] at hn
  rw [h3, h4]
  exact hs n hn

/-- Uninstalling a duplicate-free list of registered instances with complete
saved state: the chain succeeds, exactly the listed instances leave the
registry, every capture's source attributes are unchanged, and untouched
channels keep their configuration.  When additionally the listed instances'
channel sets are pairwise disjoint, every channel of a listed instance is
restored to that instance's saved configuration. -/
theorem foldlM_uninstall_chain :
    ∀ (L : List Nat) (st : LogState), L.Nodup →
    (∀ i ∈ L, i ∈ st.instances) →
    (∀ i ∈ L, SavedComplete st i) →
    ∃ stF, L.foldlM (fun s i => LogCapture.uninstall i s) st = Except.ok stF ∧
      (∀ k, k ∈ stF.instances ↔ k ∈ st.instances ∧ k ∉ L) ∧
      capsMatch stF st ∧
      stF.heap = st.heap ∧
      ((∀ i ∈ L, ∀ j ∈ L, i ≠ j → ∀ n ∈ (st.caps i).names, n ∉ (st.caps j).names) →
        ∀ i ∈ L, ∀ n ∈ (st.caps i).names, stF.loggers n = savedLogger st i n) ∧
      (∀ n, (∀ i ∈ L, n ∉ (st.caps i).names) → stF.loggers n = st.loggers n)
  | [], st, _, _, _ =>
    ⟨st, rfl, by simp, fun _ => ⟨rfl, rfl, rfl, rfl, rfl⟩, rfl, by simp, fun _ _ => rfl⟩
  | a :: L, st, hnd, hmem, hsc => by
    obtain ⟨ha, hndL⟩ := List.nodup_cons.mp hnd
    obtain ⟨st1, hu, hinst1, hcaps1, hheap1, hres1, hfr1⟩ :=
      uninstall_ok_spec a st (hmem a (List.mem_cons_self a L)) (hsc a (List.mem_cons_self a L))
    have hmem1 : ∀ i ∈ L, i ∈ st1.instances := by
      intro i hi
      rw [hinst1, Finset.mem_erase]
      exact ⟨fun he => ha (he ▸ hi), hmem i (List.mem_cons_of_mem a hi)⟩
    have hsc1 : ∀ i ∈ L, SavedComplete st1 i := fun i hi =>
      savedComplete_of_capsMatch hcaps1 i (hsc i (List.mem_cons_of_mem a hi))
    obtain ⟨stF, hfold, hmemF, hcapsF, hheapF, hresF, hfrF⟩ :=
      foldlM_uninstall_chain L st1 hndL hmem1 hsc1
    refine ⟨stF, ?_, ?_, capsMatch_trans hcapsF hcaps1, hheapF.trans hheap1, ?_, ?_⟩
    · rw [List.foldlM_cons, hu]
      simpa [Bind.bind, Except.bind] using hfold
    · intro k
      rw [hmemF k, hinst1, Finset.mem_erase]
      constructor
      · rintro ⟨⟨hka, hkst⟩, hkL⟩
        exact ⟨hkst, by simp [hka, hkL]⟩
      · rintro ⟨hkst, hk⟩
        simp only [List.mem_cons, not_or] at hk
        exact ⟨⟨hk.1, hkst⟩, hk.2⟩
    · intro hdisj
      have hdisj1 : ∀ i ∈ L, ∀ j ∈ L, i ≠ j →
          ∀ n ∈ (st1.caps i).names, n ∉ (st1.caps j).names := by
        intro i hi j hj hne n hn
        rw [(hcaps1 i).1] at hn
        rw [(hcaps1 j).1]
        exact hdisj i (List.mem_cons_of_mem a hi) j (List.mem_cons_of_mem a hj) hne n hn
      intro i hi n hn
      rcases List.mem_cons.mp hi with hia | hiL
      · subst hia
        have hfrn : ∀ j ∈ L, n ∉ (st1.caps j).names := by
          intro j hj
          rw [(hcaps1 j).1]
          exact hdisj i (List.mem_cons_self i L) j (List.mem_cons_of_mem i hj)
            (fun he => ha (he ▸ hj)) n hn
        rw [hfrF n hfrn]
        exact hres1 n hn
      · have hn1 : n ∈ (st1.caps i).names := by rw [(hcaps1 i).1]; exact hn
        rw [hresF hdisj1 i hiL n hn1, savedLogger_eq_of_capsMatch hcaps1]
    · intro n hn
      have hnL : ∀ i ∈ L, n ∉ (st1.caps i).names := by
        intro i hi
        rw [(hcaps1 i).1]
        exact hn i (List.mem_cons_of_mem a hi)
      rw [hfrF n hnL]
      exact hfr1 n (hn a (List.mem_cons_self a L))

/-- C7 (amended): `uninstall_all()` uninstalls every currently registered
instance — each single uninstall setting that instance's configured channels to
that instance's own saved threshold and receiver list — and afterwards the
registry is empty, in no particular uninstall order; the only requirement is
the complete saved state that `install` leaves behind.  When the registered
instances capture pairwise disjoint channel sets, every configured channel is
thereby left exactly at its saved threshold and receiver list; with overlapping
channel sets a shared channel ends at the values saved by whichever instance
was uninstalled last (see the counterexample). -/
theorem uninstall_all_empties_registry (st : LogState)
    (hs : ∀ i ∈ st.instances, SavedComplete st i) :
    LogCapture.uninstall_all st =
      Except.ok (okState (LogCapture.uninstall_all st) st) ∧
    (okState (LogCapture.uninstall_all st) st).instances = ∅ ∧
    (NamesDisjoint st →
      ∀ i ∈ st.instances, ∀ n ∈ (st.caps i).names,
        (okState (LogCapture.uninstall_all st) st).loggers n = savedLogger st i n) := by
  have hnd := Finset.sort_nodup (· ≤ ·) st.instances
  have hmem : ∀ i ∈ st.instances.sort (· ≤ ·), i ∈ st.instances := fun i hi =>
    (Finset.mem_sort (· ≤ ·)).mp hi
  obtain ⟨stF, hfold, hmemF, _, _, hresF, _⟩ :=
    foldlM_uninstall_chain (st.instances.sort (· ≤ ·)) st hnd hmem
      (fun i hi => hs i (hmem i hi))
  have hua : LogCapture.uninstall_all st = Except.ok stF := by
    rw [LogCapture.uninstall_all]
    exact hfold
  rw [hua]
  refine ⟨rfl, ?_, ?_⟩
  · apply Finset.eq_empty_iff_forall_not_mem.mpr
    intro k hk
    have hkk := (hmemF k).mp hk
    exact hkk.2 ((Finset.mem_sort (· ≤ ·)).mpr hkk.1)
  · intro hd i hi n hn
    exact hresF
      (fun i hi j hj hne => hd i (hmem i hi) j (hmem j hj) hne)
      i ((Finset.mem_sort (· ≤ ·)).mpr hi) n hn

/-- Witness for C7: two captures installed on the disjoint channels `a` and
`b`; after `uninstall_all` the registry is empty and both channels are at
their saved configuration. -/
theorem uninstall_all_empties_registry_witness :
    (∀ i ∈ stW7.instances, SavedComplete stW7 i) ∧
    NamesDisjoint stW7 ∧
    (okState (LogCapture.uninstall_all stW7) stW7).instances = ∅ ∧
    ∀ i ∈ stW7.instances, ∀ n ∈ (stW7.caps i).names,
      (okState (LogCapture.uninstall_all stW7) stW7).loggers n = savedLogger stW7 i n :=
  ⟨by decide, by decide,
    (uninstall_all_empties_registry stW7 (by decide)).2.1,
    (uninstall_all_empties_registry stW7 (by decide)).2.2 (by decide)⟩

/-- The snapshot `uninstall_all` iterates over for `stOverlap`. -/
theorem stOverlap_sort : stOverlap.instances.sort (· ≤ ·) = [1, 2] := by
  have h : stOverlap.instances = insert 1 {2} := by decide
  have h1 : ∀ b ∈ ({2} : Finset Nat), 1 ≤ b := by decide
  have h2 : (1 : Nat) ∉ ({2} : Finset Nat) := by decide
  rw [h, Finset.sort_insert (· ≤ ·) h1 h2, Finset.sort_singleton]

/-- On `stOverlap`, `uninstall_all` is the chain uninstalling 1 then 2. -/
theorem uninstall_all_stOverlap :
    LogCapture.uninstall_all stOverlap =
      [1, 2].foldlM (fun s i => LogCapture.uninstall i s) stOverlap := by
  rw [LogCapture.uninstall_all, stOverlap_sort]

/-- C7 counterexample: two captures both installed on the same channel `a`
(the second saving the first's swapped-in configuration).  `uninstall_all`
succeeds and empties the registry, but channel `a` ends at level 1 with the
first (now uninstalled) capture as its sole handler — not at the threshold 30
and empty receiver list it had before the installs, which is what instance 1
saved — so with overlapping channel sets the final state does not restore each
configured channel to its saved threshold and receiver list. -/
theorem uninstall_all_overlap_cex :
    (1 : Nat) ∈ stOverlap.instances ∧
    some "a" ∈ (stOverlap.caps 1).names ∧
    savedLogger stOverlap 1 (some "a") = { level := 30, handlers := [] } ∧
    (match LogCapture.uninstall_all stOverlap with
      | Except.ok s =>
        some (s.instances, (s.loggers (some "a")).level, (s.loggers (some "a")).handlers)
      | Except.error _ => Option.none) = some (∅, 1, [1]) := by
  refine ⟨by decide, by decide, by decide, ?_⟩
  rw [uninstall_all_stOverlap]
  decide

/-! ## C6: registry membership is installation -/

theorem installStep_ghost (id : Nat) (st : LogState) (n : Option String) (j : Nat) :
    ((LogCapture.installStep id st n).caps j).swappedIn = (st.caps j).swappedIn := by
  by_cases h : j = id
  · subst h; simp [LogCapture.installStep, Function.update_same]
  · simp [LogCapture.installStep, Function.update_noteq h]

theorem foldl_installStep_ghost (id : Nat) :
    ∀ (ns : List (Option String)) (st : LogState),
    (ns.foldl (LogCapture.installStep id) st).instances = st.instances ∧
    ∀ j, ((ns.foldl (LogCapture.installStep id) st).caps j).swappedIn =
      (st.caps j).swappedIn
  | [], _ => ⟨rfl, fun _ => rfl⟩
  | n :: rest, st => by
    obtain ⟨h1, h2⟩ := foldl_installStep_ghost id rest (LogCapture.installStep id st n)
    refine ⟨?_, fun j => ?_⟩
    · rw [List.foldl_cons, h1, installStep_instances]
    · rw [List.foldl_cons, h2 j, installStep_ghost]

theorem install_reginv (id : Nat) (st : LogState) (h : RegInv st) :
    RegInv (LogCapture.install id st) := by
  obtain ⟨h1, h2⟩ := foldl_installStep_ghost id ((st.caps id).names) st
  intro j
  by_cases hj : j = id
  · subst hj
    simp [LogCapture.install, Function.update_same]
  · simp only [LogCapture.install, Finset.mem_insert, Function.update_noteq hj]
    simp [hj, h1, h2 j, h j]

theorem uninstallStep_ok_fields {id : Nat} {st stF : LogState} {n : Option String}
    (h : LogCapture.uninstallStep id st n = Except.ok stF) :
    stF.caps = st.caps ∧ stF.instances = st.instances ∧ stF.heap = st.heap := by
  cases hl : dictGet ((st.caps id).oldlevels) n with
  | none =>
    rw [LogCapture.uninstallStep] at h
    simp [hl, keyErr, Bind.bind, Except.bind] at h
  | some l =>
    cases hh : dictGet ((st.caps id).oldhandlers) n with
    | none =>
      rw [LogCapture.uninstallStep] at h
      simp [hl, hh, keyErr, Bind.bind, Except.bind] at h
    | some hs =>
      rw [uninstallStep_ok id st n l hs hl hh] at h
      injection h with h
      rw [← h]
      exact ⟨rfl, rfl, rfl⟩

theorem foldlM_uninstallStep_fields (id : Nat) :
    ∀ (ns : List (Option String)) (st stF : LogState),
    ns.foldlM (LogCapture.uninstallStep id) st = Except.ok stF →
    stF.caps = st.caps ∧ stF.instances = st.instances ∧ stF.heap = st.heap
  | [], st, stF, h => by
    have hst : st = stF := by simpa [List.foldlM, pure, Except.pure] using h
    rw [← hst]
    exact ⟨rfl, rfl, rfl⟩
  | n :: rest, st, stF, h => by
    rw [List.foldlM_cons] at h
    obtain ⟨st1, h1, h2⟩ := except_bind_ok h
    obtain ⟨c1, i1, p1⟩ := uninstallStep_ok_fields h1
    obtain ⟨c2, i2, p2⟩ := foldlM_uninstallStep_fields id rest st1 stF h2
    exact ⟨c2.trans c1, i2.trans i1, p2.trans p1⟩

theorem uninstall_reginv {id : Nat} {st st2 : LogState}
    (h : LogCapture.uninstall id st = Except.ok st2) (hinv : RegInv st) : RegInv st2 := by
  by_cases hm : id ∈ st.instances
  · rw [uninstall_of_mem id st hm] at h
    obtain ⟨stF, hfold, hpure⟩ := except_bind_ok h
    obtain ⟨hcaps, hinsts, _⟩ := foldlM_uninstallStep_fields id ((st.caps id).names) st stF hfold
    have hst2 : st2 = { stF with
        instances := stF.instances.erase id,
        caps := Function.update stF.caps id ({ stF.caps id with swappedIn := false }) } := by
      simpa [pure, Except.pure, eq_comm] using hpure
    rw [hst2]
    intro j
    by_cases hj : j = id
    · subst hj
      simp [Function.update_same, Finset.not_mem_erase]
    · simp only [Function.update_noteq hj, Finset.mem_erase, hinsts, hcaps]
      simp [hj, hinv j]
  · rw [uninstall_of_not_mem id st hm] at h
    have hst2 : st2 = st := by simpa [eq_comm] using h
    rw [hst2]
    exact hinv

theorem foldlM_uninstall_reginv :
    ∀ (L : List Nat) (st stF : LogState),
    L.foldlM (fun s i => LogCapture.uninstall i s) st = Except.ok stF →
    RegInv st → RegInv stF
  | [], st, stF, h, hinv => by
    have hst : st = stF := by simpa [List.foldlM, pure, Except.pure] using h
    rw [← hst]
    exact hinv
  | a :: L, st, stF, h, hinv => by
    rw [List.foldlM_cons] at h
    obtain ⟨st1, h1, h2⟩ := except_bind_ok h
    exact foldlM_uninstall_reginv L st1 stF h2 (uninstall_reginv h1 hinv)

theorem clear_reginv (id : Nat) (st : LogState) (h : RegInv st) :
    RegInv (LogCapture.clear id st) := by
  intro j
  by_cases hj : j = id
  · subst hj
    simpa [LogCapture.clear, Function.update_same] using h j
  · simpa [LogCapture.clear, Function.update_noteq hj] using h j

theorem foldl_dispatch_reginv (ev : LogEvent) :
    ∀ (hs : List Nat) (st : LogState), RegInv st →
    RegInv (hs.foldl
      (fun s hid => if (s.caps hid).level ≤ ev.levelno
        then LogCapture.emit hid (mkRecord ev) s else s) st)
  | [], _, h => h
  | hid :: rest, st, h => by
    rw [List.foldl_cons]
    apply foldl_dispatch_reginv ev rest
    by_cases hc : (st.caps hid).level ≤ ev.levelno
    · rw [if_pos hc]
      intro j
      rw [(emit_frame hid (mkRecord ev) st).2.1,
        (emit_caps hid (mkRecord ev) st j).2.2.2.2.1]
      exact h j
    · rw [if_neg hc]
      exact h

theorem handleEvent_reginv (st : LogState) (ev : LogEvent) (h : RegInv st) :
    RegInv (handleEvent st ev) := by
  have hd : handleEvent st ev =
      if (st.loggers ev.channel).level ≤ ev.levelno then
        ((st.loggers ev.channel).handlers).foldl
          (fun s hid => if (s.caps hid).level ≤ ev.levelno
            then LogCapture.emit hid (mkRecord ev) s else s) st
      else st := rfl
  rw [hd]
  split
  · exact foldl_dispatch_reginv ev ((st.loggers ev.channel).handlers) st h
  · exact h

theorem construct_reginv {st : LogState} {id : Nat} {names : List (Option String)}
    {installFlag : Bool} {level : Nat}
    (hfresh : id ∉ st.instances) (h : RegInv st) :
    RegInv (LogCapture.construct id names installFlag level st) := by
  have h1 : RegInv { st with
      caps := Function.update st.caps id
        ({ names := names, level := level, oldlevels := [], oldhandlers := [],
           records := [], swappedIn := false }),
      handlersDict := insert id st.handlersDict,
      handlerList := id :: st.handlerList } := by
    intro j
    by_cases hj : j = id
    · subst hj
      simp [Function.update_same, hfresh]
    · simpa [Function.update_noteq hj] using h j
  rw [LogCapture.construct]
  split
  · exact install_reginv id _ h1
  · exact h1

theorem step_reginv {st st2 : LogState} {op : Op}
    (hstep : Step st op st2) (h : RegInv st) : RegInv st2 := by
  cases hstep with
  | construct hfresh => exact construct_reginv hfresh h
  | install => exact install_reginv _ _ h
  | uninstall hu => exact uninstall_reginv hu h
  | uninstallAll hu =>
    rw [LogCapture.uninstall_all] at hu
    exact foldlM_uninstall_reginv _ _ _ hu h
  | clear => exact clear_reginv _ _ h
  | logCall => exact handleEvent_reginv _ _ h
  | enter => exact h
  | exitScope hu => exact uninstall_reginv hu h

theorem steps_reginv {st0 st : LogState} {ops : List Op}
    (hsteps : Steps st0 ops st) : RegInv st0 → RegInv st := by
  induction hsteps with
  | nil => exact fun h0 => h0
  | cons hstep _ ih => exact fun h0 => ih (step_reginv hstep h0)

/-- C6: after any completed sequence of construction, `install()`,
`uninstall()`, `uninstall_all()`, `clear()`, logging calls, and scoped
entry/exit operations, starting from any state satisfying the invariant (such
as the quiescent initial state), an instance is a member of the process-wide
registry if and only if it is currently installed — has swapped itself into
its logging channels and not yet restored them. -/
theorem registry_iff_installed (st0 st : LogState) (ops : List Op)
    (h0 : RegInv st0) (hsteps : Steps st0 ops st) : RegInv st :=
  steps_reginv hsteps h0

/-- Witness for C6: the invariant holds in the initial state, a concrete
construct-and-install step runs, and the invariant holds afterwards. -/
theorem registry_iff_installed_witness :
    RegInv initState ∧ Steps initState opsW6 stW6 ∧ RegInv stW6 := by
  have h0 : RegInv initState := by
    intro j
    simp [initState, initCap, RegInv]
  have hs : Steps initState opsW6 stW6 :=
    Steps.cons (Step.construct (by decide)) Steps.nil
  exact ⟨h0, hs, registry_iff_installed initState stW6 opsW6 h0 hs⟩

end Testfixtures
